import Mathlib

/-!
Verification of the storage core of the orders repository: the Record Store,
the Secondary Index (the members of the Redis set named orders), the grouped
mutations Insert, Update, DeleteByID and the paginated scan FindAll, embedded
from src/repository/order/redis.go and from src/unnamed/part_000 (a second
revision of the same file, whose DeleteByID checks existence first and whose
FindAll is implemented with SSCAN and MGET).

The Redis client and server are external collaborators and are modelled:
the Record Store as an association list from keys to stored values, the set
named orders as its members in scan order, SSCAN over an unchanged set as a
positional cursor, and the go-redis v9 command semantics that the repository
relies on (a command queued on a TxPipeline reports no error before Exec;
SET with NX or XX answers a nil reply when the condition fails, which the
client BoolCmd converts to the pair false and nil; DEL answers a count and
never a nil reply).
-/

/-- Modelled from the spec: one line item of an order record (the model
package of the repository is not under src). Section 3 of the spec: item
identifier, quantity, unit price. -/
structure LineItem where
  ItemID : String
  Quantity : Nat
  Price : Nat
  deriving DecidableEq

/-- Modelled from the spec: an order record (the model package of the
repository is not under src). Section 3 of the spec: numeric identifier,
customer identifier, ordered sequence of line items, creation timestamp,
nullable shipped timestamp, nullable completed timestamp. Timestamps are
modelled as abstract instants. -/
structure Order where
  OrderID : Nat
  CustomerID : String
  LineItems : List LineItem
  CreatedAt : Nat
  ShippedAt : Option Nat
  CompletedAt : Option Nat
  deriving DecidableEq

/-- Modelled from the spec: the storage-representable value produced by the
Codec (encoding/json is outside the repository), kept structurally as a JSON
document value. -/
inductive Jv where
  | null
  | num (n : Nat)
  | str (s : String)
  | arr (xs : List Jv)
  | obj (fields : List (String × Jv))

/-- First binding of a key in an association list of JSON object fields or
store entries. -/
def lookupKV (k : String) : List (String × Jv) → Option Jv
  | [] => none
  | (k2, v) :: rest => if k = k2 then some v else lookupKV k rest

/-- Modelled from the spec: JSON encoding of a line item, with the field
names of the documented wire format. -/
def encodeItem (it : LineItem) : Jv :=
  .obj [("item_id", .str it.ItemID), ("quantity", .num it.Quantity),
        ("price", .num it.Price)]

/-- Modelled from the spec: a nullable timestamp encodes to null or to its
instant. -/
def encodeTime : Option Nat → Jv
  | none => .null
  | some t => .num t

/-- Modelled from the spec: JSON encoding of an order record, with the field
names of the documented wire format, item order preserved. -/
def encode (o : Order) : Jv :=
  .obj [("order_id", .num o.OrderID),
        ("customer_id", .str o.CustomerID),
        ("lineitems", .arr (o.LineItems.map encodeItem)),
        ("created_at", .num o.CreatedAt),
        ("shipped_at", encodeTime o.ShippedAt),
        ("completed_at", encodeTime o.CompletedAt)]

/-- Numeric JSON value, if the document is one. -/
def asNum : Jv → Option Nat
  | .num n => some n
  | _ => none

/-- String JSON value, if the document is one. -/
def asStr : Jv → Option String
  | .str s => some s
  | _ => none

/-- Array JSON value, if the document is one. -/
def asArr : Jv → Option (List Jv)
  | .arr xs => some xs
  | _ => none

/-- Nullable timestamp from a JSON value: null decodes to absent, a number
to a present instant. -/
def asTime : Jv → Option (Option Nat)
  | .null => some none
  | .num t => some (some t)
  | _ => none

/-- Field of a JSON object. -/
def jfield (k : String) : Jv → Option Jv
  | .obj fs => lookupKV k fs
  | _ => none

/-- Modelled from the spec: JSON decoding of a line item. -/
def decodeItem (j : Jv) : Option LineItem := do
  let iid ← jfield "item_id" j >>= asStr
  let q ← jfield "quantity" j >>= asNum
  let p ← jfield "price" j >>= asNum
  some ⟨iid, q, p⟩

/-- Modelled from the spec: JSON decoding of a sequence of line items, in
order, failing if any element fails. -/
def decodeItems : List Jv → Option (List LineItem)
  | [] => some []
  | j :: rest => do
    let it ← decodeItem j
    let its ← decodeItems rest
    some (it :: its)

/-- Modelled from the spec: JSON decoding of an order record. -/
def decode (j : Jv) : Option Order := do
  let oid ← jfield "order_id" j >>= asNum
  let cid ← jfield "customer_id" j >>= asStr
  let items ← jfield "lineitems" j >>= asArr >>= decodeItems
  let created ← jfield "created_at" j >>= asNum
  let shipped ← jfield "shipped_at" j >>= asTime
  let completed ← jfield "completed_at" j >>= asTime
  some ⟨oid, cid, items, created, shipped, completed⟩

/-- Decimal digit character, as produced by the percent d verb of
fmt.Sprintf. -/
def digitCh (d : Nat) : Char := Char.ofNat (48 + d)

/-- Decimal rendering loop of the percent d verb, most significant digit
first; the first argument is fuel, always called with enough for every
digit. -/
def decDigitsAux : Nat → Nat → List Char → List Char
  | 0, _, acc => acc
  | fuel + 1, n, acc =>
    if n < 10 then digitCh n :: acc
    else decDigitsAux fuel (n / 10) (digitCh (n % 10) :: acc)

/-- Decimal rendering of an unsigned integer, as fmt.Sprintf with the
percent d verb renders a uint64. -/
def natDec (n : Nat) : String := String.mk (decDigitsAux (n + 1) n [])

/-- Embeds orderIDKey of src/repository/order/redis.go and of
src/unnamed/part_000 (both read fmt.Sprintf with the literal "order: %d"
applied to the identifier). -/
def orderIDKey (id : Nat) : String := "order: " ++ natDec id

/-- State of the Redis backing store as the repository uses it: the Record
Store (serialized records keyed by storage key, an association list) and the
Secondary Index (the members of the set named orders, in scan order). -/
structure RState where
  store : List (String × Jv)
  index : List String

/-- The empty backing store. -/
def emptyState : RState := ⟨[], []⟩

/-- Redis DEL: removes every binding of the key from the record store (a
missing key is a no-op that answers count zero, not an error). -/
def delKV (k : String) : List (String × Jv) → List (String × Jv)
  | [] => []
  | (k2, v) :: rest => if k = k2 then delKV k rest else (k2, v) :: delKV k rest

/-- Redis SET with XX once the key is known present: replace the bound
value. -/
def setKV (k : String) (v : Jv) : List (String × Jv) → List (String × Jv)
  | [] => []
  | (k2, v2) :: rest => if k = k2 then (k2, v) :: rest else (k2, v2) :: setKV k v rest

/-- Redis SADD on the set named orders: appends the member in scan order if
absent, no-op if present. -/
def sAdd (k : String) (idx : List String) : List String :=
  if k ∈ idx then idx else idx ++ [k]

/-- Redis SREM on the set named orders: removes the member if present, no-op
if absent. -/
def sRem (k : String) (idx : List String) : List String :=
  idx.filter (fun k2 => k2 != k)

/-- Error outcomes of the repository operations in the modelled executions:
ErrNotExist, a json.Unmarshal failure wrapped as an error, and the Go
runtime panic raised by the unchecked cast x.(string) applied to the nil
interface that MGET yields for a missing key. -/
inductive RepoErr where
  | notExist
  | decodeFail
  | typeAssertPanic
  deriving DecidableEq

namespace RedisRepo

/-- Embeds Insert, identical in src/repository/order/redis.go and in
src/unnamed/part_000: json.Marshal the order (total on the modelled record
type), derive the key, queue SetNX of the key and SAdd of the key into the
set named orders on a TxPipeline, then Exec. A queued command reports no
error before Exec, SetNX on a present key answers false with no error and
leaves the stored value as it was, and SAdd of a present member is a no-op,
so the function returns nil in every modelled execution, also when the
identifier is already present. -/
def Insert (s : RState) (o : Order) : Except RepoErr RState :=
  let key := orderIDKey o.OrderID
  let data := encode o
  let store2 := if (lookupKV key s.store).isSome then s.store else (key, data) :: s.store
  Except.ok ⟨store2, sAdd key s.index⟩

/-- Embeds FindByID, identical in both revisions: GET the key (a nil reply
becomes ErrNotExist), then json.Unmarshal the value. -/
def FindByID (s : RState) (id : Nat) : Except RepoErr Order :=
  match lookupKV (orderIDKey id) s.store with
  | none => Except.error RepoErr.notExist
  | some v =>
    match decode v with
    | none => Except.error RepoErr.decodeFail
    | some o => Except.ok o

/-- Embeds DeleteByID of src/repository/order/redis.go: queue DEL of the key
and SREM of the key from the set named orders on a TxPipeline, then Exec.
The guard comparing the queued DEL result with redis.Nil is dead code (a
queued command reports no error before Exec, and DEL answers a count, never
a nil reply), so the function returns nil in every modelled execution, also
when the key is absent. -/
def DeleteByID_v1 (s : RState) (id : Nat) : Except RepoErr RState :=
  let key := orderIDKey id
  Except.ok ⟨delKV key s.store, sRem key s.index⟩

/-- Embeds DeleteByID of src/unnamed/part_000: EXISTS on the key first,
returning ErrNotExist when the count is zero without starting a transaction;
otherwise queue DEL and SREM on a TxPipeline and Exec. -/
def DeleteByID_v2 (s : RState) (id : Nat) : Except RepoErr RState :=
  let key := orderIDKey id
  if (lookupKV key s.store).isSome then
    Except.ok ⟨delKV key s.store, sRem key s.index⟩
  else
    Except.error RepoErr.notExist

/-- Embeds Update, identical in both revisions: json.Marshal the order, SET
the key with XX. On an absent key the server answers a nil reply, which the
go-redis v9 BoolCmd converts to the pair false and nil, so the branch
comparing the error with redis.Nil is dead code and the function returns nil
with the state unchanged; on a present key the value is replaced and the
index is untouched. -/
def Update (s : RState) (o : Order) : Except RepoErr RState :=
  let key := orderIDKey o.OrderID
  if (lookupKV key s.store).isSome then
    Except.ok ⟨setKV key (encode o) s.store, s.index⟩
  else
    Except.ok s

/-- Embeds FindAllPage of src/unnamed/part_000: Size is the SSCAN count
hint, Offset is fed to SSCAN as the cursor. -/
structure FindAllPage where
  Size : Nat
  Offset : Nat

/-- Embeds FindResult of src/unnamed/part_000: the page of orders and the
next cursor. -/
structure FindResult where
  Orders : List Order
  Cursor : Nat
  deriving DecidableEq

/-- Model of Redis SSCAN over a set whose membership does not change during
the traversal: the cursor is a position in the scan order, one call returns
the next chunk of at most count members, and the returned cursor is zero
exactly when the scan has handed out the last member. -/
def sScan (idx : List String) (cursor count : Nat) : List String × Nat :=
  ((idx.drop cursor).take count,
   if idx.length ≤ cursor + count then 0 else cursor + count)

/-- Redis MGET: one optional value per requested key, a nil entry for each
missing key. -/
def mGet (st : List (String × Jv)) (keys : List String) : List (Option Jv) :=
  keys.map (fun k => lookupKV k st)

/-- Embeds the extraction loop of FindAll in src/unnamed/part_000: each MGET
result is cast with the unchecked x.(string) — on a nil interface (a missing
key) this is a runtime panic — and then passed to json.Unmarshal, whose
failure aborts the whole page. -/
def decodeAll : List (Option Jv) → Except RepoErr (List Order)
  | [] => Except.ok []
  | none :: _ => Except.error RepoErr.typeAssertPanic
  | some v :: rest =>
    match decode v with
    | none => Except.error RepoErr.decodeFail
    | some o =>
      match decodeAll rest with
      | Except.error e => Except.error e
      | Except.ok os => Except.ok (o :: os)

/-- Embeds FindAll of src/unnamed/part_000: SSCAN the set named orders with
the page offset as cursor and the page size as count; on an empty chunk
return an empty page with the scanned cursor; otherwise MGET the chunk,
extract and decode every entry, and return the page with the scanned
cursor. -/
def FindAll (s : RState) (page : FindAllPage) : Except RepoErr FindResult :=
  let scanned := sScan s.index page.Offset page.Size
  if scanned.1.isEmpty then
    Except.ok ⟨[], scanned.2⟩
  else
    match decodeAll (mGet s.store scanned.1) with
    | Except.error e => Except.error e
    | Except.ok os => Except.ok ⟨os, scanned.2⟩

/-- Embeds FindAll of src/repository/order/redis.go: a placeholder that
returns nil, nil for every state and page, with no cursor in its result
type. -/
def FindAll_v1 (_s : RState) (_page : FindAllPage) : Except RepoErr (List Order) :=
  Except.ok []

end RedisRepo

/-- The joint invariant of section 3 of the spec: a key is bound in the
Record Store exactly when it is a member of the Secondary Index. -/
def JointInv (s : RState) : Prop :=
  ∀ k : String, (lookupKV k s.store).isSome ↔ k ∈ s.index

/-! Helper lemmas about the store and index primitives. -/

theorem lookupKV_delKV (k kd : String) (st : List (String × Jv)) :
    lookupKV k (delKV kd st) = if k = kd then none else lookupKV k st := by
  induction st with
  | nil => simp [delKV, lookupKV]
  | cons kv rest ih =>
    obtain ⟨k2, v⟩ := kv
    by_cases hd : kd = k2
    · subst hd
      by_cases h : k = kd
      · subst h
        simp [delKV, lookupKV, ih]
      · simp [delKV, lookupKV, h, ih]
    · by_cases h : k = k2
      · subst h
        simp [delKV, lookupKV, hd, Ne.symm hd]
      · simp [delKV, lookupKV, hd, h, ih]

theorem mem_sRem (k kd : String) (idx : List String) :
    k ∈ sRem kd idx ↔ k ∈ idx ∧ k ≠ kd := by
  simp [sRem, List.mem_filter, bne_iff_ne]

theorem mem_sAdd (k ka : String) (idx : List String) :
    k ∈ sAdd ka idx ↔ k ∈ idx ∨ k = ka := by
  by_cases h : ka ∈ idx
  · simp only [sAdd, if_pos h]
    constructor
    · exact Or.inl
    · rintro (hk | rfl)
      · exact hk
      · exact h
  · simp [sAdd, if_neg h]

/-! Codec round trip. -/

theorem asTime_encodeTime (t : Option Nat) : asTime (encodeTime t) = some t := by
  cases t <;> rfl

theorem decodeItem_encodeItem (it : LineItem) : decodeItem (encodeItem it) = some it := by
  simp [decodeItem, encodeItem, jfield, lookupKV, asStr, asNum, Option.bind]

theorem decodeItems_map_encodeItem (its : List LineItem) :
    decodeItems (its.map encodeItem) = some its := by
  induction its with
  | nil => rfl
  | cons it rest ih => simp [decodeItems, decodeItem_encodeItem, ih, Option.bind]

theorem decode_encode (o : Order) : decode (encode o) = some o := by
  obtain ⟨oid, cid, items, created, shipped, completed⟩ := o
  simp [decode, encode, jfield, lookupKV, asNum, asStr, asArr,
        decodeItems_map_encodeItem, asTime_encodeTime, Option.bind]

/-! Injectivity of the storage key derivation. -/

theorem digitCh_toNat (d : Nat) (h : d < 10) : (digitCh d).toNat = 48 + d := by
  interval_cases d <;> decide

theorem decDigitsAux_eq (fuel n : Nat) (acc : List Char) (h : n < fuel) :
    decDigitsAux fuel n acc = decDigitsAux (n + 1) n [] ++ acc := by
  induction n using Nat.strong_induction_on generalizing fuel acc with
  | _ n ih =>
    match fuel, h with
    | fuel + 1, h =>
      by_cases h10 : n < 10
      · simp [decDigitsAux, h10]
      · have hdivn : n / 10 < n :=
          Nat.div_lt_self (Nat.lt_of_lt_of_le (by norm_num) (Nat.le_of_not_lt h10)) (by norm_num)
        have hdivf : n / 10 < fuel := Nat.lt_of_lt_of_le hdivn (Nat.lt_succ_iff.mp h)
        simp only [decDigitsAux, if_neg h10]
        rw [ih (n / 10) hdivn fuel (digitCh (n % 10) :: acc) hdivf,
            ih (n / 10) hdivn n [digitCh (n % 10)] hdivn]
        simp

/-- Numeric value of a decimal digit string, most significant digit
first. -/
def digitsVal (cs : List Char) : Nat :=
  cs.foldl (fun a c => a * 10 + (c.toNat - 48)) 0

theorem digitsVal_decDigits (n : Nat) : digitsVal (decDigitsAux (n + 1) n []) = n := by
  induction n using Nat.strong_induction_on with
  | _ n ih =>
    by_cases h10 : n < 10
    · simp [decDigitsAux, h10, digitsVal, digitCh_toNat n h10]
    · have hdivn : n / 10 < n :=
        Nat.div_lt_self (Nat.lt_of_lt_of_le (by norm_num) (Nat.le_of_not_lt h10)) (by norm_num)
      have hstep : decDigitsAux (n + 1) n [] =
          decDigitsAux (n / 10 + 1) (n / 10) [] ++ [digitCh (n % 10)] := by
        have h3 : decDigitsAux (n + 1) n [] = decDigitsAux n (n / 10) [digitCh (n % 10)] := by
          simp [decDigitsAux, h10]
        rw [h3, decDigitsAux_eq n (n / 10) [digitCh (n % 10)] hdivn]
      have hd : (digitCh (n % 10)).toNat = 48 + n % 10 :=
        digitCh_toNat (n % 10) (Nat.mod_lt n (by norm_num))
      have hv := ih (n / 10) hdivn
      rw [hstep]
      simp only [digitsVal, List.foldl_append] at hv ⊢
      rw [hv, List.foldl_cons, List.foldl_nil, hd]
      omega

theorem natDec_injective (a b : Nat) (h : natDec a = natDec b) : a = b := by
  have hdata : decDigitsAux (a + 1) a [] = decDigitsAux (b + 1) b [] :=
    congrArg String.data h
  calc a = digitsVal (decDigitsAux (a + 1) a []) := (digitsVal_decDigits a).symm
    _ = digitsVal (decDigitsAux (b + 1) b []) := by rw [hdata]
    _ = b := digitsVal_decDigits b

theorem orderIDKey_injective_helper (a b : Nat) (h : orderIDKey a = orderIDKey b) : a = b := by
  have hd := congrArg String.data h
  simp only [orderIDKey, String.data_append] at hd
  exact natDec_injective a b (String.ext (List.append_cancel_left hd))

theorem delKV_of_lookup_none (k : String) (st : List (String × Jv))
    (h : lookupKV k st = none) : delKV k st = st := by
  induction st with
  | nil => rfl
  | cons kv rest ih =>
    obtain ⟨k2, v⟩ := kv
    by_cases hk : k = k2
    · simp [lookupKV, hk] at h
    · simp only [lookupKV, if_neg hk] at h
      simp [delKV, hk, ih h]

theorem sRem_of_not_mem (k : String) (idx : List String) (h : k ∉ idx) :
    sRem k idx = idx := by
  apply List.filter_eq_self.mpr
  intro a ha
  simp only [bne_iff_ne, ne_eq, decide_eq_true_eq]
  exact fun hak => h (hak ▸ ha)

theorem jointInv_insert_state (s : RState) (key : String) (v : Jv) (h : JointInv s) :
    JointInv ⟨if (lookupKV key s.store).isSome then s.store else (key, v) :: s.store,
              sAdd key s.index⟩ := by
  intro k
  by_cases hp : (lookupKV key s.store).isSome
  · have hmem : key ∈ s.index := (h key).mp hp
    simp only [if_pos hp, sAdd, if_pos hmem]
    exact h k
  · have hmem : key ∉ s.index := fun hm => hp ((h key).mpr hm)
    simp only [if_neg hp, sAdd, if_neg hmem]
    by_cases hk : k = key
    · subst hk
      simp [lookupKV]
    · simp [lookupKV, hk, h k]

theorem jointInv_delete_state (s : RState) (key : String) (h : JointInv s) :
    JointInv ⟨delKV key s.store, sRem key s.index⟩ := by
  intro k
  rw [show (RState.mk (delKV key s.store) (sRem key s.index)).store = delKV key s.store from rfl,
      show (RState.mk (delKV key s.store) (sRem key s.index)).index = sRem key s.index from rfl,
      lookupKV_delKV, mem_sRem]
  by_cases hk : k = key
  · simp [hk]
  · simp [hk, h k]

/-- A one-order backing store that satisfies the joint invariant. -/
theorem jointInv_single (k0 : String) (v : Jv) : JointInv ⟨[(k0, v)], [k0]⟩ := by
  intro k
  by_cases hk : k = k0 <;> simp [lookupKV, hk]

/-- Sample order with identifier 1 and one line item. -/
def sampleOrder1 : Order := ⟨1, "customer-1", [⟨"item-1", 2, 1999⟩], 100, none, none⟩

/-- A different record carrying the same identifier 1. -/
def sampleOrder1b : Order := ⟨1, "customer-2", [], 200, some 300, none⟩

/-- Sample order with identifier 99, never inserted anywhere. -/
def sampleOrder99 : Order := ⟨99, "customer-99", [], 400, none, none⟩

/-- The state reached by inserting sampleOrder1 into the empty store. -/
def state1 : RState := ⟨[(orderIDKey 1, encode sampleOrder1)], [orderIDKey 1]⟩

/-- A state whose index lists a key that the record store does not hold, as
left behind by the redis.go DeleteByID racing a scan, or by direct data
loss. -/
def missState : RState := ⟨[], [orderIDKey 7]⟩

/-- Claim C1: after any committed Insert or DeleteByID operation (either
revision), for every key the Record Store entry and the membership in the
set named orders are both present or both absent: the joint invariant is
preserved by every committed mutation. -/
theorem insertDelete_preserve_jointInv (s : RState) (o : Order) (id : Nat)
    (h : JointInv s) :
    (∀ s2, RedisRepo.Insert s o = Except.ok s2 → JointInv s2) ∧
    (∀ s2, RedisRepo.DeleteByID_v1 s id = Except.ok s2 → JointInv s2) ∧
    (∀ s2, RedisRepo.DeleteByID_v2 s id = Except.ok s2 → JointInv s2) := by
  refine ⟨?_, ?_, ?_⟩
  · intro s2 heq
    have h2 : s2 = ⟨if (lookupKV (orderIDKey o.OrderID) s.store).isSome then s.store
        else (orderIDKey o.OrderID, encode o) :: s.store,
        sAdd (orderIDKey o.OrderID) s.index⟩ := by
      simpa [RedisRepo.Insert] using heq.symm
    subst h2
    exact jointInv_insert_state s _ _ h
  · intro s2 heq
    have h2 : s2 = ⟨delKV (orderIDKey id) s.store, sRem (orderIDKey id) s.index⟩ := by
      simpa [RedisRepo.DeleteByID_v1] using heq.symm
    subst h2
    exact jointInv_delete_state s _ h
  · intro s2 heq
    by_cases hp : (lookupKV (orderIDKey id) s.store).isSome
    · have h2 : s2 = ⟨delKV (orderIDKey id) s.store, sRem (orderIDKey id) s.index⟩ := by
        simpa [RedisRepo.DeleteByID_v2, hp] using heq.symm
      subst h2
      exact jointInv_delete_state s _ h
    · simp [RedisRepo.DeleteByID_v2, hp] at heq

/-- Witness for claim C1: inserting sample order 1 into the empty store
yields a state satisfying the joint invariant. -/
theorem insertDelete_preserve_jointInv_witness : JointInv state1 :=
  (insertDelete_preserve_jointInv emptyState sampleOrder1 0
    (fun k => by simp [emptyState, lookupKV])).1 state1 rfl

/-- Claim C2, counterexample: the identifier 1 is already present in the
Record Store of state1, yet Insert of a second record with identifier 1
returns success (nil error), not an AlreadyExists error; indeed the error
type of the repository has no AlreadyExists variant at all. -/
theorem insert_duplicate_returns_ok_cex :
    RedisRepo.Insert state1 sampleOrder1b = Except.ok state1 := rfl

/-- Claim C2, amended: for a record whose identifier is already present in
a state satisfying the joint invariant, Insert returns success with the
state completely unchanged — the stored record is not overwritten and no
index mutation becomes visible, but no AlreadyExists error is reported. -/
theorem insert_duplicate_silent_noop (s : RState) (o : Order) (h : JointInv s)
    (hp : (lookupKV (orderIDKey o.OrderID) s.store).isSome = true) :
    RedisRepo.Insert s o = Except.ok s := by
  have hmem : orderIDKey o.OrderID ∈ s.index := (h _).mp hp
  simp [RedisRepo.Insert, hp, sAdd, hmem]

/-- Witness for the amended claim C2 at a concrete duplicate insert. -/
theorem insert_duplicate_silent_noop_witness :
    RedisRepo.Insert state1 sampleOrder1b = Except.ok state1 :=
  insert_duplicate_silent_noop state1 sampleOrder1b (jointInv_single _ _) rfl

/-- Claim C3: the DeleteByID of src/repository/order/redis.go, applied to an
identifier whose key is absent (the empty store), returns success instead of
the ErrNotExist its own documentation promises, after executing the DEL plus
SREM transaction; the state is left unchanged. The DeleteByID of
src/unnamed/part_000 does return ErrNotExist there. -/
theorem deleteByID_redisgo_absent_ok :
    RedisRepo.DeleteByID_v1 emptyState 7 = Except.ok emptyState ∧
    RedisRepo.DeleteByID_v2 emptyState 7 = Except.error RepoErr.notExist := ⟨rfl, rfl⟩

/-- Claim C4: a page request on a state whose index lists a key missing from
the Record Store makes FindAll fail with the runtime panic of the unchecked
x.(string) cast on the nil MGET entry, instead of skipping the miss and
returning the remaining records. -/
theorem findAll_mget_miss_panics :
    RedisRepo.FindAll missState ⟨10, 0⟩ = Except.error RepoErr.typeAssertPanic := rfl

/-- Claim C7: Update of a record whose identifier was never inserted (the
empty store) returns success instead of the ErrNotExist its own
documentation promises — SET with XX answers a nil reply that the client
converts to false with no error — while the state is indeed left unchanged,
so a subsequent FindByID still reports ErrNotExist. -/
theorem update_never_inserted_silent_ok :
    RedisRepo.Update emptyState sampleOrder99 = Except.ok emptyState ∧
    RedisRepo.FindByID emptyState 99 = Except.error RepoErr.notExist := ⟨rfl, rfl⟩

/-- Claim C9: the storage key derivation is a pure function and is
injective: two identifiers share a key exactly when they are equal. -/
theorem orderIDKey_injective_iff (a b : Nat) : orderIDKey a = orderIDKey b ↔ a = b := by
  constructor
  · exact orderIDKey_injective_helper a b
  · rintro rfl
    rfl

/-- Claim C10, counterexample: on the empty store and identifier 7 the two
DeleteByID revisions disagree — redis.go returns success, part_000 returns
ErrNotExist — so they are not observationally equivalent. -/
theorem deleteByID_variants_differ_cex :
    RedisRepo.DeleteByID_v1 emptyState 7 = Except.ok emptyState ∧
    RedisRepo.DeleteByID_v2 emptyState 7 = Except.error RepoErr.notExist ∧
    RedisRepo.DeleteByID_v1 emptyState 7 ≠ RedisRepo.DeleteByID_v2 emptyState 7 :=
  ⟨rfl, rfl, fun h => by simp [RedisRepo.DeleteByID_v1, RedisRepo.DeleteByID_v2, emptyState, lookupKV] at h⟩

/-- Claim C10, amended: on a state satisfying the joint invariant, the two
DeleteByID revisions return the same result and final state whenever the key
of the identifier is present; when it is absent both leave the state
unchanged, but the redis.go revision reports success while the part_000
revision reports ErrNotExist. -/
theorem deleteByID_variants_agree (s : RState) (id : Nat) (h : JointInv s) :
    ((lookupKV (orderIDKey id) s.store).isSome = true →
      RedisRepo.DeleteByID_v1 s id = RedisRepo.DeleteByID_v2 s id) ∧
    ((lookupKV (orderIDKey id) s.store).isSome = false →
      RedisRepo.DeleteByID_v1 s id = Except.ok s ∧
      RedisRepo.DeleteByID_v2 s id = Except.error RepoErr.notExist) := by
  constructor
  · intro hp
    simp [RedisRepo.DeleteByID_v1, RedisRepo.DeleteByID_v2, hp]
  · intro hab
    have hnone : lookupKV (orderIDKey id) s.store = none :=
      Option.not_isSome_iff_eq_none.mp (by simp [hab])
    have hni : orderIDKey id ∉ s.index := fun hm => by
      have := (h _).mpr hm
      simp [hnone] at this
    constructor
    · simp [RedisRepo.DeleteByID_v1, delKV_of_lookup_none _ _ hnone, sRem_of_not_mem _ _ hni]
    · simp [RedisRepo.DeleteByID_v2, hab]

/-- Witness for the amended claim C10 at a present key and identifier 1. -/
theorem deleteByID_variants_agree_witness :
    RedisRepo.DeleteByID_v1 state1 1 = RedisRepo.DeleteByID_v2 state1 1 :=
  (deleteByID_variants_agree state1 1 (jointInv_single _ _)).1 rfl

/-- Claim C5: codec round trip — decoding the encoding of any valid order
record yields the record back in every field, including the nullable
shipped and completed timestamps and the order of the line items. -/
theorem codec_round_trip_law (r : Order) : decode (encode r) = some r :=
  decode_encode r

/-- Claim C6, counterexample: with a different record already stored under
identifier 1, Insert of sampleOrder1b returns success, yet FindByID
afterwards returns the old record, which differs from the inserted one — so
a successful Insert alone does not make FindByID return the argument. -/
theorem insert_existing_masks_old_record_cex :
    RedisRepo.Insert state1 sampleOrder1b = Except.ok state1 ∧
    RedisRepo.FindByID state1 1 = Except.ok sampleOrder1 ∧
    sampleOrder1 ≠ sampleOrder1b := by
  refine ⟨rfl, ?_, by decide⟩
  simp [RedisRepo.FindByID, state1, lookupKV, decode_encode]

/-- Claim C6, amended: after a successful Insert of a record whose
identifier was absent beforehand (and no other intervening mutation of that
identifier), FindByID of the identifier returns a record equal to the
inserted one in every field. -/
theorem findByID_after_fresh_insert (s : RState) (r : Order)
    (habs : lookupKV (orderIDKey r.OrderID) s.store = none) :
    ∀ s2, RedisRepo.Insert s r = Except.ok s2 →
      RedisRepo.FindByID s2 r.OrderID = Except.ok r := by
  intro s2 heq
  have h2 : s2 = ⟨(orderIDKey r.OrderID, encode r) :: s.store,
      sAdd (orderIDKey r.OrderID) s.index⟩ := by
    simpa [RedisRepo.Insert, habs] using heq.symm
  subst h2
  simp [RedisRepo.FindByID, lookupKV, decode_encode]

/-- Witness for the amended claim C6: inserting sample order 1 into the
empty store and reading identifier 1 back returns the same record. -/
theorem findByID_after_fresh_insert_witness :
    RedisRepo.FindByID state1 1 = Except.ok sampleOrder1 :=
  findByID_after_fresh_insert emptyState sampleOrder1 rfl state1 rfl

/-- The chained traversal of section 8 of the spec: call FindAll with the
given page size starting at the given cursor, feed each returned cursor into
the next call, stop when the returned cursor is zero, and concatenate the
pages. The fuel bounds the number of calls; none signals a failed page or
exhausted fuel. -/
def listAll (s : RState) (size : Nat) : Nat → Nat → Option (List Order)
  | 0, _ => none
  | fuel + 1, cursor =>
    match RedisRepo.FindAll s ⟨size, cursor⟩ with
    | Except.error _ => none
    | Except.ok res =>
      if res.Cursor = 0 then some res.Orders
      else
        match listAll s size fuel res.Cursor with
        | none => none
        | some more => some (res.Orders ++ more)

/-- Folds Insert over a list of records, starting from the given state. -/
def insertAll : List Order → RState → RState
  | [], s => s
  | o :: os, s =>
    match RedisRepo.Insert s o with
    | Except.ok s2 => insertAll os s2
    | Except.error _ => s

theorem insertAll_cons (o : Order) (os : List Order) (s : RState) :
    insertAll (o :: os) s = insertAll os
      ⟨if (lookupKV (orderIDKey o.OrderID) s.store).isSome then s.store
        else (orderIDKey o.OrderID, encode o) :: s.store,
       sAdd (orderIDKey o.OrderID) s.index⟩ := rfl

theorem insertAll_index (os : List Order) (s : RState)
    (hfresh : ∀ o ∈ os, orderIDKey o.OrderID ∉ s.index)
    (hnd : (os.map fun o => orderIDKey o.OrderID).Nodup) :
    (insertAll os s).index = s.index ++ os.map fun o => orderIDKey o.OrderID := by
  induction os generalizing s with
  | nil => simp [insertAll]
  | cons o os ih =>
    simp only [List.map_cons, List.nodup_cons] at hnd
    have hkey : orderIDKey o.OrderID ∉ s.index := hfresh o (by simp)
    rw [insertAll_cons]
    rw [ih _ ?hfresh2 hnd.2]
    case hfresh2 =>
      intro o2 h2
      simp only [sAdd, if_neg hkey, List.mem_append, List.mem_singleton]
      rintro (hin | heq)
      · exact hfresh o2 (List.mem_cons_of_mem _ h2) hin
      · exact hnd.1 (heq ▸ List.mem_map_of_mem _ h2)
    simp [sAdd, if_neg hkey]

theorem insertAll_lookup_preserved (os : List Order) (s : RState) (k : String)
    (hne : ∀ o ∈ os, orderIDKey o.OrderID ≠ k) :
    lookupKV k (insertAll os s).store = lookupKV k s.store := by
  induction os generalizing s with
  | nil => rfl
  | cons o os ih =>
    rw [insertAll_cons, ih _ (fun o2 h2 => hne o2 (List.mem_cons_of_mem _ h2))]
    by_cases hp : (lookupKV (orderIDKey o.OrderID) s.store).isSome
    · simp [hp]
    · have hk : k ≠ orderIDKey o.OrderID := fun h => hne o (by simp) h.symm
      simp [hp, lookupKV, hk]

theorem insertAll_lookup (os : List Order) (s : RState)
    (habs : ∀ o ∈ os, lookupKV (orderIDKey o.OrderID) s.store = none)
    (hnd : (os.map fun o => orderIDKey o.OrderID).Nodup) :
    ∀ o ∈ os, lookupKV (orderIDKey o.OrderID) (insertAll os s).store = some (encode o) := by
  induction os generalizing s with
  | nil => intro o h; cases h
  | cons o os ih =>
    intro o2 h2
    simp only [List.map_cons, List.nodup_cons] at hnd
    have habs0 : lookupKV (orderIDKey o.OrderID) s.store = none := habs o (by simp)
    rw [insertAll_cons]
    have hstore : (if (lookupKV (orderIDKey o.OrderID) s.store).isSome then s.store
        else (orderIDKey o.OrderID, encode o) :: s.store) =
        (orderIDKey o.OrderID, encode o) :: s.store := by simp [habs0]
    rw [hstore]
    rcases List.mem_cons.mp h2 with rfl | hmem
    · have hne : ∀ o3 ∈ os, orderIDKey o3.OrderID ≠ orderIDKey o2.OrderID := by
        intro o3 h3 heq
        exact hnd.1 (heq ▸ List.mem_map_of_mem _ h3)
      rw [insertAll_lookup_preserved os _ _ hne]
      simp [lookupKV]
    · apply ih
      · intro o3 h3
        have h3ne : orderIDKey o3.OrderID ≠ orderIDKey o.OrderID := by
          intro heq
          exact hnd.1 (heq ▸ List.mem_map_of_mem _ h3)
        simp [lookupKV, h3ne, habs o3 (List.mem_cons_of_mem _ h3)]
      · exact hnd.2
      · exact hmem

theorem decodeAll_encoded (xs : List Order) :
    RedisRepo.decodeAll (xs.map fun o => some (encode o)) = Except.ok xs := by
  induction xs with
  | nil => rfl
  | cons x xs ih => simp [RedisRepo.decodeAll, decode_encode, ih]

theorem findAll_page (s : RState) (os : List Order) (size cursor : Nat)
    (hidx : s.index = os.map fun o => orderIDKey o.OrderID)
    (hlook : ∀ o ∈ os, lookupKV (orderIDKey o.OrderID) s.store = some (encode o)) :
    RedisRepo.FindAll s ⟨size, cursor⟩ =
      Except.ok ⟨(os.drop cursor).take size,
        if os.length ≤ cursor + size then 0 else cursor + size⟩ := by
  have hlen : s.index.length = os.length := by rw [hidx, List.length_map]
  have hsub : ∀ o ∈ (os.drop cursor).take size, o ∈ os :=
    fun o ho => List.drop_subset cursor os (List.take_subset _ _ ho)
  have hmget : RedisRepo.mGet s.store (((os.drop cursor).take size).map fun o => orderIDKey o.OrderID)
      = ((os.drop cursor).take size).map fun o => some (encode o) := by
    simp only [RedisRepo.mGet, List.map_map]
    exact List.map_congr_left fun o ho => hlook o (hsub o ho)
  have hkeys : (s.index.drop cursor).take size =
      ((os.drop cursor).take size).map fun o => orderIDKey o.OrderID := by
    rw [hidx, ← List.map_drop, ← List.map_take]
  simp only [RedisRepo.FindAll, RedisRepo.sScan, hkeys, hlen]
  by_cases hch : (os.drop cursor).take size = []
  · simp [hch]
  · rw [if_neg (by simpa [List.isEmpty_iff, List.map_eq_nil_iff] using hch)]
    rw [hmget, decodeAll_encoded]

theorem listAll_spec (s : RState) (os : List Order) (size : Nat) (hsz : 0 < size)
    (hidx : s.index = os.map fun o => orderIDKey o.OrderID)
    (hlook : ∀ o ∈ os, lookupKV (orderIDKey o.OrderID) s.store = some (encode o)) :
    ∀ fuel cursor, os.length - cursor < fuel →
      listAll s size fuel cursor = some (os.drop cursor) := by
  intro fuel
  induction fuel with
  | zero => intro cursor h; omega
  | succ fuel ih =>
    intro cursor hf
    rw [listAll, findAll_page s os size cursor hidx hlook]
    by_cases hend : os.length ≤ cursor + size
    · rw [if_pos hend]
      dsimp only
      rw [if_pos rfl]
      rw [List.take_of_length_le (by rw [List.length_drop]; omega)]
    · rw [if_neg hend]
      dsimp only
      rw [if_neg (by omega)]
      rw [ih (cursor + size) (by omega)]
      dsimp only
      rw [← List.drop_drop, List.take_append_drop]

/-- Sample order with identifier 7 and both timestamps set. -/
def sampleOrder7 : Order := ⟨7, "customer-7", [], 500, some 600, some 700⟩

/-- Claim C8: over a set of live identifiers that does not change during the
traversal (here: the state built by inserting a list of records with
pairwise distinct identifiers into the empty store), chaining FindAll from
cursor zero with any positive page size until the returned cursor is zero
visits every live identifier exactly once: the concatenated pages are
exactly the inserted records, whose identifier list is duplicate free. -/
theorem findAll_chained_traversal (os : List Order) (size : Nat) (hsz : 0 < size)
    (hnd : (os.map Order.OrderID).Nodup) :
    listAll (insertAll os emptyState) size (os.length + 1) 0 = some os ∧
    (os.map Order.OrderID).Nodup := by
  have hinj : Function.Injective orderIDKey := fun a b h => orderIDKey_injective_helper a b h
  have hkeysnd : (os.map fun o => orderIDKey o.OrderID).Nodup := by
    have hmm : (os.map fun o => orderIDKey o.OrderID) =
        (os.map Order.OrderID).map orderIDKey := by rw [List.map_map]; rfl
    rw [hmm]
    exact hnd.map hinj
  have hidx : (insertAll os emptyState).index = os.map fun o => orderIDKey o.OrderID := by
    have h0 := insertAll_index os emptyState (fun o _ => by simp [emptyState]) hkeysnd
    simpa [emptyState] using h0
  have hlook := insertAll_lookup os emptyState (fun o _ => rfl) hkeysnd
  refine ⟨?_, hnd⟩
  have h1 := listAll_spec (insertAll os emptyState) os size hsz hidx hlook
    (os.length + 1) 0 (by omega)
  simpa using h1

/-- Witness for claim C8: two live orders, page size one, three chained
calls; the traversal returns both records once each. -/
theorem findAll_chained_traversal_witness :
    listAll (insertAll [sampleOrder1, sampleOrder7] emptyState) 1 3 0 =
      some [sampleOrder1, sampleOrder7] ∧
    ([sampleOrder1, sampleOrder7].map Order.OrderID).Nodup :=
  findAll_chained_traversal [sampleOrder1, sampleOrder7] 1 (by decide) (by decide)
